import Mathlib

/-!
Verification of the two-phase simplex pipeline of the repository
(`src/lab1/src/simplex.py`, `canonical.py`, `auxiliary.py`, `utils.py`,
driven by `src/lab1/main.py`).

The Python code works on floats; the embedding uses exact rationals.
Every numeric tolerance (`1e-9` in the source) is kept as the exact
rational `eps`.  The `while True` simplex loop of the source is embedded
as a fuel-indexed recursion `simplexLoop`; `none` means the loop has not
reached any of the source's exit points within the given fuel, so a
result of the real program corresponds to `some` for all large fuels.
-/

/-- Tolerance constant `1e-9` used in every comparison in `simplex.py`. -/
def eps : ℚ := 1 / 1000000000

/-- Value of a solution: either a finite number or `float('inf')`,
which `simplex.py` returns on unboundedness. -/
inductive Val where
  | num (x : ℚ)
  | inf
deriving DecidableEq, Repr

/-- `Solution` from `src/lab1/src/models.py`: point, objective value,
found flag and a diagnostic reason. -/
structure Solution where
  point : List ℚ
  value : Val
  found : Bool
  reason : String
deriving DecidableEq, Repr

/-- `LinearProblem` from `src/lab1/src/models.py`. `var_signs` holds the
`+1 / -1` sign convention of each variable, `n_original_vars` the number
of variables before slack/artificial columns were appended. -/
structure LinearProblem where
  objective : List ℚ
  constraints : List (List ℚ)
  rhs : List ℚ
  signs : List String
  var_names : List String
  is_max : Bool
  var_signs : List ℚ
  n_original_vars : ℕ
deriving DecidableEq, Repr

/-- The mutable state of the simplex iteration in `solve_simplex`:
the `(m+1) × (n+1)` tableau, the basis bookkeeping list, and the
dimensions `m`, `n` fixed after slack insertion. -/
structure Tableau where
  mat : List (List ℚ)
  basis : List (Option ℕ)
  m : ℕ
  n : ℕ
deriving DecidableEq, Repr

/-- `np.argmin` over a list of rationals: index of the first occurrence
of the minimal element (`0` on the empty list). -/
def argminIdx (l : List ℚ) : ℕ :=
  (l.enum.foldl
    (fun best p => if p.2 < best.2 then p else best)
    ((0 : ℕ), l.headD 0)).1

/-- Comparison on `Option ℚ` where `none` plays the role of `np.inf`. -/
def optLt : Option ℚ → Option ℚ → Bool
  | some a, some b => decide (a < b)
  | some _, none => true
  | none, _ => false

/-- `np.argmin` over the `ratios` list of `solve_simplex`, in which
rows with non-positive pivot entries carry `np.inf` (here `none`). -/
def argminOpt (l : List (Option ℚ)) : ℕ :=
  (l.enum.foldl
    (fun best p => if optLt p.2 best.2 then p else best)
    ((0 : ℕ), l.headD none)).1

/-- One turn of the slack-insertion loop of `solve_simplex` (`for i,
sign in enumerate(lp.signs)`): on `"<="` append a `+1` unit column and a
zero cost, on `">="` a `-1` unit column, on `"="` only record that the
row has no initial basic variable. -/
def slackStep (st : List (List ℚ) × List ℚ × List (Option ℕ) × ℕ)
    (p : ℕ × String) : List (List ℚ) × List ℚ × List (Option ℕ) × ℕ :=
  let A := st.1
  let c := st.2.1
  let basis := st.2.2.1
  let n := st.2.2.2
  let i := p.1
  let sign := p.2
  if sign = "<=" then
    (A.mapIdx (fun j row => row ++ [if j = i then (1 : ℚ) else 0]),
     c ++ [0], basis ++ [some n], n + 1)
  else if sign = "=" then
    (A, c, basis ++ [none], n)
  else if sign = ">=" then
    (A.mapIdx (fun j row => row ++ [if j = i then (-1 : ℚ) else 0]),
     c ++ [0], basis ++ [some n], n + 1)
  else (A, c, basis, n)

/-- The slack-insertion preamble of `solve_simplex`: returns the
extended matrix `A`, the extended cost vector `c`, the initial `basis`
list and the running column count `n`. -/
def addSlacks (lp : LinearProblem) :
    List (List ℚ) × List ℚ × List (Option ℕ) × ℕ :=
  lp.signs.enum.foldl slackStep
    (lp.constraints, lp.objective, ([] : List (Option ℕ)),
     (lp.constraints.headD []).length)

/-- Construction of the initial tableau in `solve_simplex`:
`tableau[:m,:n] = A`, `tableau[:m,-1] = b`, and the last row is `-c`
for a maximization problem and `c` for a minimization problem. -/
def initState (lp : LinearProblem) : Tableau :=
  let s := addSlacks lp
  let A := s.1
  let c := s.2.1
  let basis := s.2.2.1
  let n := s.2.2.2
  let rows := List.zipWith (fun row b => row ++ [b]) A lp.rhs
  let objRow := (if lp.is_max then c.map (fun x => -x) else c) ++ [0]
  ⟨rows ++ [objRow], basis, lp.constraints.length, n⟩

/-- One pivot of `solve_simplex`: divide row `r` by the pivot element,
then subtract from every other row (the objective row included) its
entry in column `c` times the normalized pivot row. -/
def pivotAll (rows : List (List ℚ)) (r c : ℕ) : List (List ℚ) :=
  let elem := (rows.getD r []).getD c 0
  let norm := (rows.getD r []).map (fun x => x / elem)
  (List.range rows.length).map (fun i =>
    if i = r then norm
    else
      let row := rows.getD i []
      List.zipWith (fun x y => x - row.getD c 0 * y) row norm)

/-- Outcome of one trip through the `while True` body of
`solve_simplex`: break on optimality, early `return` on unboundedness,
or continue with the pivoted tableau. -/
inductive StepRes where
  | stop
  | unbounded
  | cont (t : Tableau)
deriving DecidableEq, Repr

/-- One trip through the loop body of `solve_simplex`: the optimality
check on `tableau[-1,:-1]`, the entering-column choice by `np.argmin`,
the unboundedness check on `tableau[:m, pivot_col]`, the minimal-ratio
leaving-row choice, the pivot, and the basis update. -/
def simplexStep (t : Tableau) : StepRes :=
  let objRow := (t.mat.getLastD []).dropLast
  if objRow.all (fun x => decide (-eps ≤ x)) then .stop
  else
    let pc := argminIdx objRow
    let col := (List.range t.m).map (fun i => (t.mat.getD i []).getD pc 0)
    if col.all (fun x => decide (x ≤ eps)) then .unbounded
    else
      let ratios := (List.range t.m).map (fun i =>
        let a := (t.mat.getD i []).getD pc 0
        if eps < a then some ((t.mat.getD i []).getLastD 0 / a) else none)
      let pr := argminOpt ratios
      let mat := pivotAll t.mat pr pc
      let basis :=
        if pr < t.basis.length then t.basis.set pr (some pc)
        else t.basis ++ [some pc]
      .cont ⟨mat, basis, t.m, t.n⟩

/-- The Solution built by the unboundedness `return` of `solve_simplex`. -/
def unboundedSolution : Solution :=
  ⟨[], Val.inf, false, "Функция не ограничена сверху"⟩

/-- The `while True` loop of `solve_simplex`, indexed by fuel.
`some (Sum.inl t)` is the `break` on optimality with final tableau `t`,
`some (Sum.inr s)` is the early unboundedness `return`, and `none`
means no exit point was reached within the fuel. -/
def simplexLoop : ℕ → Tableau → Option (Tableau ⊕ Solution)
  | 0, _ => none
  | f + 1, t =>
    match simplexStep t with
    | .stop => some (Sum.inl t)
    | .unbounded => some (Sum.inr unboundedSolution)
    | .cont u => simplexLoop f u

/-- Extraction of the solution after the loop breaks: read the basic
variables' values from the rhs column, keep the first
`len(lp.objective)` components, and sign-correct the objective value. -/
def extractSolution (t : Tableau) (lp : LinearProblem) : Solution :=
  let x := (List.range t.m).foldl
    (fun x i =>
      match t.basis.getD i none with
      | some b =>
        if b < t.n then x.set b ((t.mat.getD i []).getLastD 0) else x
      | none => x)
    (List.replicate t.n 0)
  let val := (t.mat.getLastD []).getLastD 0
  ⟨x.take lp.objective.length,
   Val.num (if lp.is_max then val else -val),
   true, "Симплекс: решение найдено"⟩

/-- `solve_simplex` from `src/lab1/src/simplex.py`, with fuel standing
in for the unbounded `while True`. -/
def solveSimplex (fuel : ℕ) (lp : LinearProblem) : Option Solution :=
  match simplexLoop fuel (initState lp) with
  | none => none
  | some (Sum.inl t) => some (extractSolution t lp)
  | some (Sum.inr s) => some s

/-- The row-building loop of `to_canonical`: walks the zipped
`(transformed row, sign, rhs)` triples threading the running slack
counter, and emits the canonical rows, rhs and relation symbols. -/
def canonStep (numSlack : ℕ) :
    List (List ℚ × String × ℚ) → ℕ →
      List (List ℚ) × List ℚ × List String
  | [], _ => ([], [], [])
  | (row, sign, r) :: rest, sc =>
    let extra :=
      if sign = "<=" then (List.replicate numSlack (0 : ℚ)).set sc 1
      else if sign = ">=" then (List.replicate numSlack (0 : ℚ)).set sc (-1)
      else List.replicate numSlack 0
    let sc2 := if sign = "<=" ∨ sign = ">=" then sc + 1 else sc
    let rec3 := canonStep numSlack rest sc2
    ((row ++ extra) :: rec3.1, r :: rec3.2.1, "=" :: rec3.2.2)

/-- `to_canonical` from `src/lab1/src/canonical.py`: apply the variable
sign substitution, append one slack/surplus column per inequality, make
every relation `=` and every variable sign `+1`. -/
def toCanonical (lp : LinearProblem) : LinearProblem :=
  let base := lp.var_names.length
  let tC := lp.constraints.map (fun row =>
    (List.range base).map (fun j => row.getD j 0 * lp.var_signs.getD j 1))
  let tO := (List.range base).map
    (fun j => lp.objective.getD j 0 * lp.var_signs.getD j 1)
  let numSlack := lp.signs.countP (fun s => decide (s ≠ "="))
  let built := canonStep numSlack (tC.zip (lp.signs.zip lp.rhs)) 0
  let varNames := lp.var_names ++
    (List.range numSlack).map (fun i => "s" ++ toString (i + 1))
  ⟨tO ++ List.replicate numSlack 0,
   built.1, built.2.1, built.2.2, varNames, lp.is_max,
   List.replicate varNames.length 1, lp.n_original_vars⟩

/-- `build_auxiliary` from `src/lab1/src/auxiliary.py`: flip rows with
negative rhs, append an identity block of artificial columns, and
minimize the sum of the artificial variables. -/
def buildAuxiliary (lp : LinearProblem) : LinearProblem :=
  let nCons := lp.rhs.length
  let nVars := (lp.constraints.headD []).length
  let pairs := List.zipWith
    (fun row b =>
      if b < (0 : ℚ) then (row.map (fun x => -x), -b) else (row, b))
    lp.constraints lp.rhs
  let constraints2 := (pairs.map Prod.fst).mapIdx (fun j row =>
    if j < nCons then
      row ++ (List.range nCons).map (fun i => if i = j then (1 : ℚ) else 0)
    else row)
  ⟨List.replicate nVars 0 ++ List.replicate nCons 1,
   constraints2, pairs.map Prod.snd,
   List.replicate lp.rhs.length "=",
   lp.var_names ++ (List.range nCons).map (fun i => "a" ++ toString (i + 1)),
   false,
   lp.var_signs ++ List.replicate nCons 1,
   lp.n_original_vars⟩

/-- The solution-mapping computation of `write_solution` in
`src/lab1/src/utils.py`: keep the first `n_original_vars` components of
the point and multiply each by the variable's original sign. -/
def mapOriginal (problem : LinearProblem) (point : List ℚ) : List ℚ :=
  let k := problem.n_original_vars
  let y := point.take k
  let signs := problem.var_signs.take k
  (List.range k).map (fun i => signs.getD i 0 * y.getD i 0)

/-- The pipeline of `src/lab1/main.py`: canonicalize, build the
auxiliary problem, solve it, and — whenever the auxiliary solve reports
`found` — solve the canonical problem and map the point back through the
original problem's variable signs.  The second component is the mapped
point (`none` when `main` stops after the auxiliary solve). -/
def mainPipeline (fuel : ℕ) (lp : LinearProblem) :
    Option (Solution × Option (List ℚ)) :=
  let canonical := toCanonical lp
  let aux := buildAuxiliary canonical
  match solveSimplex fuel aux with
  | none => none
  | some auxSol =>
    if auxSol.found = false then some (auxSol, none)
    else
      match solveSimplex fuel canonical with
      | none => none
      | some sol => some (sol, some (mapOriginal lp sol.point))

/-- One `cont` transition of the loop, as a partial map on tableaus. -/
def advance (t : Tableau) : Option Tableau :=
  match simplexStep t with
  | .cont u => some u
  | _ => none

/-- `k`-fold iteration of `advance`. -/
def advanceN : ℕ → Tableau → Option Tableau
  | 0, t => some t
  | k + 1, t =>
    match advance t with
    | none => none
    | some u => advanceN k u

/-! ### Concrete problems used in the worked examples -/

/-- The spec's infeasible worked example: `x1 + x2 = 1`, `x1 + x2 = 3`
(zero objective, maximize). -/
def infeasibleLP : LinearProblem :=
  ⟨[0, 0], [[1, 1], [1, 1]], [1, 3], ["=", "="], ["x1", "x2"], true,
   [1, 1], 2⟩

/-- The spec's feasible worked example: maximize `2x1 + 3x2` subject to
`x1 + x2 ≤ 4`, `x1 + 2x2 ≤ 5`, `x1, x2 ≥ 0`. -/
def feasibleLP : LinearProblem :=
  ⟨[2, 3], [[1, 1], [1, 2]], [4, 5], ["<=", "<="], ["x1", "x2"], true,
   [1, 1], 2⟩

/-- Beale's classic cycling problem: minimize
`-3/4 x1 + 150 x2 - 1/50 x3 + 6 x4` subject to
`1/4 x1 - 60 x2 - 1/25 x3 + 9 x4 ≤ 0`,
`1/2 x1 - 90 x2 - 1/50 x3 + 3 x4 ≤ 0`, `x3 ≤ 1`. Under the engine's
most-negative-column and first-minimal-ratio rules the tableau state
repeats with period 6. -/
def bealeLP : LinearProblem :=
  ⟨[-(3/4), 150, -(1/50), 6],
   [[1/4, -60, -(1/25), 9], [1/2, -90, -(1/50), 3], [0, 0, 1, 0]],
   [0, 0, 1],
   ["<=", "<=", "<="],
   ["x1", "x2", "x3", "x4"],
   false, [1, 1, 1, 1], 4⟩

/-- A problem with one variable declared `≤ 0` (`var_signs = [-1]`):
maximize `-x1` subject to `-x1 ≤ 5`; the optimum is `x1 = -5`. -/
def negSignLP : LinearProblem :=
  ⟨[-1], [[-1]], [5], ["<="], ["x1"], true, [-1], 1⟩

/-- The spec's unbounded worked example: maximize `x1` subject to
`x1 - x2 ≤ 1`. -/
def unboundedLP : LinearProblem :=
  ⟨[1, 0], [[1, -1]], [1], ["<="], ["x1", "x2"], true, [1, 1], 2⟩

/-- A canonical problem with a negative rhs entry, exercising the row
flip of `build_auxiliary`. -/
def negRhsLP : LinearProblem :=
  ⟨[1, 1], [[1, 0], [0, 1]], [-2, 3], ["=", "="], ["x1", "x2"], true,
   [1, 1], 2⟩

/-- A one-constraint maximization problem used to settle the sign
convention of the objective row. -/
def signMaxLP : LinearProblem :=
  ⟨[1], [[1]], [1], ["<="], ["x1"], true, [1], 1⟩

/-- The same problem with a minimization objective. -/
def signMinLP : LinearProblem :=
  ⟨[1], [[1]], [1], ["<="], ["x1"], false, [1], 1⟩

/-! ### Generic list access lemmas -/

theorem getD_map_of_lt {α β : Type} [Inhabited α] [Inhabited β]
    (l : List α) (f : α → β) (i : ℕ)
    (h : i < l.length) (d : β) (d2 : α) :
    (l.map f).getD i d = f (l.getD i d2) := by
  rw [List.getD_eq_getElem _ _ (by simpa using h), List.getD_eq_getElem _ _ h]
  simp

theorem getD_range_map {α : Type} (n i : ℕ) (f : ℕ → α) (h : i < n)
    (d : α) : ((List.range n).map f).getD i d = f i := by
  rw [List.getD_eq_getElem _ _ (by simpa using h)]
  simp

theorem getD_zipWith_of_lt {α β γ : Type} (as : List α) (bs : List β)
    (g : α → β → γ) (i : ℕ)
    (h1 : i < as.length) (h2 : i < bs.length) (d : γ) (da : α) (db : β) :
    (List.zipWith g as bs).getD i d = g (as.getD i da) (bs.getD i db) := by
  rw [List.getD_eq_getElem _ _ (by simp; omega),
    List.getD_eq_getElem _ _ h1, List.getD_eq_getElem _ _ h2]
  simp

theorem getD_take_of_lt {α : Type} (l : List α) (k j : ℕ) (hj : j < k)
    (hl : j < l.length) (d : α) : (l.take k).getD j d = l.getD j d := by
  rw [List.getD_eq_getElem _ _ (by simp; omega), List.getD_eq_getElem _ _ hl]
  simp [List.getElem_take]

/-! ### Monotonicity of the fuel-indexed loop -/

theorem simplexLoop_mono :
    ∀ f g t r, simplexLoop f t = some r → f ≤ g →
      simplexLoop g t = some r := by
  intro f
  induction f with
  | zero => intro g t r h; simp [simplexLoop] at h
  | succ f ih =>
    intro g t r h hle
    match g, hle with
    | g + 1, hle =>
      rw [simplexLoop] at h ⊢
      cases hs : simplexStep t with
      | stop => rw [hs] at h; exact h
      | unbounded => rw [hs] at h; exact h
      | cont u => rw [hs] at h; exact ih g u r h (Nat.le_of_succ_le_succ hle)

theorem solveSimplex_mono (f g : ℕ) (lp : LinearProblem) (s : Solution)
    (h : solveSimplex f lp = some s) (hle : f ≤ g) :
    solveSimplex g lp = some s := by
  rw [solveSimplex] at h ⊢
  cases hl : simplexLoop f (initState lp) with
  | none => rw [hl] at h; simp at h
  | some r =>
    rw [hl] at h
    rw [simplexLoop_mono f g _ r hl hle]
    exact h

theorem mainPipeline_mono (f g : ℕ) (lp : LinearProblem)
    (r : Solution × Option (List ℚ))
    (h : mainPipeline f lp = some r) (hle : f ≤ g) :
    mainPipeline g lp = some r := by
  rw [mainPipeline] at h ⊢
  cases ha : solveSimplex f (buildAuxiliary (toCanonical lp)) with
  | none => rw [ha] at h; simp at h
  | some auxSol =>
    rw [ha] at h
    rw [solveSimplex_mono f g _ auxSol ha hle]
    by_cases hf : auxSol.found = false
    · simpa [hf] using h
    · simp only [hf, if_false] at h ⊢
      cases hc : solveSimplex f (toCanonical lp) with
      | none => rw [hc] at h; simp at h
      | some sol =>
        rw [hc] at h
        rw [solveSimplex_mono f g _ sol hc hle]
        exact h

/-! ### The unbounded exit always carries the same Solution -/

theorem simplexLoop_inr (f : ℕ) :
    ∀ t s, simplexLoop f t = some (Sum.inr s) → s = unboundedSolution := by
  induction f with
  | zero => intro t s h; simp [simplexLoop] at h
  | succ f ih =>
    intro t s h
    rw [simplexLoop] at h
    cases hs : simplexStep t with
    | stop => rw [hs] at h; simp at h
    | unbounded => rw [hs] at h; simp at h; exact h.symm
    | cont u => rw [hs] at h; exact ih u s h

/-! ### Periodicity of the loop state implies non-termination -/

theorem advanceN_succ_right (k : ℕ) :
    ∀ t, advanceN (k + 1) t = (advanceN k t).bind advance := by
  induction k with
  | zero =>
    intro t
    simp only [advanceN]
    cases h : advance t <;> simp [advanceN, h]
  | succ k ih =>
    intro t
    rw [advanceN]
    cases h : advance t with
    | none =>
      have : advanceN (k + 1) t = none := by rw [advanceN, h]
      rw [this]
      rfl
    | some u =>
      have h2 : advanceN (k + 1) t = advanceN k u := by rw [advanceN, h]
      rw [h2]
      show advanceN (k + 1) u = (advanceN k u).bind advance
      exact ih u

theorem advanceN_rotate (k : ℕ) (s u : Tableau) (hu : advance s = some u)
    (hk : advanceN k s = some s) : advanceN k u = some u := by
  have h1 : advanceN (k + 1) s = advanceN k u := by rw [advanceN, hu]
  have h2 : advanceN (k + 1) s = some u := by
    rw [advanceN_succ_right, hk]
    simpa using hu
  rw [← h1, h2]

theorem simplexLoop_none_of_periodic (k : ℕ) (hk : 0 < k) :
    ∀ f s, advanceN k s = some s → simplexLoop f s = none := by
  intro f
  induction f with
  | zero => intro s _; rfl
  | succ f ih =>
    intro s hs
    obtain ⟨u, hu⟩ : ∃ u, advance s = some u := by
      match k, hk with
      | k0 + 1, _ =>
        rw [advanceN] at hs
        cases h : advance s with
        | none => rw [h] at hs; simp at hs
        | some u => exact ⟨u, rfl⟩
    have hstep : simplexStep s = StepRes.cont u := by
      rw [advance] at hu
      cases h : simplexStep s with
      | stop => rw [h] at hu; simp at hu
      | unbounded => rw [h] at hu; simp at hu
      | cont w => rw [h] at hu; simp at hu; rw [hu]
    rw [simplexLoop, hstep]
    exact ih u (advanceN_rotate k s u hu hs)

set_option maxRecDepth 100000 in
/-- On Beale's example the engine's state returns to the initial state
after exactly 6 pivots. -/
theorem bealePeriod6 :
    advanceN 6 (initState bealeLP) = some (initState bealeLP) := by
  with_unfolding_all decide

/-! ### Claim C2: iteration cap -/

/-- C2 (counterexample): the claim asserts `solve_simplex` stops after a
configured maximum number of pivots (e.g. 10,000) with an
ITERATION_LIMIT result.  On Beale's example the loop state is periodic
with period 6, and even with fuel 20,000 — beyond any such cap — the
engine has produced no result at all: there is no iteration cap in the
code. -/
theorem c2_counterexample :
    advanceN 6 (initState bealeLP) = some (initState bealeLP) ∧
    simplexLoop 20000 (initState bealeLP) = none ∧
    solveSimplex 20000 bealeLP = none := by
  refine ⟨bealePeriod6,
    simplexLoop_none_of_periodic 6 (by norm_num) 20000 _ bealePeriod6, ?_⟩
  rw [solveSimplex,
    simplexLoop_none_of_periodic 6 (by norm_num) 20000 _ bealePeriod6]

/-- C2 (amended): `solve_simplex` has no iteration cap and no
ITERATION_LIMIT outcome; its `while True` loop is not guaranteed to
terminate.  On Beale's cycling example the loop never reaches an exit
point, whatever the fuel. -/
theorem c2_no_iteration_cap (f : ℕ) : solveSimplex f bealeLP = none := by
  rw [solveSimplex,
    simplexLoop_none_of_periodic 6 (by norm_num) f _ bealePeriod6]

/-! ### Claim C3: sign of the objective row -/

/-- C3 (amended): the initial tableau's last row is the *negated*
extended objective when the problem is a maximization, and the plain
extended objective when it is a minimization (the opposite of the
claim), followed by the 0 in the rhs column. -/
theorem c3_objective_row (lp : LinearProblem) :
    (initState lp).mat.getLastD [] =
      (if lp.is_max then (addSlacks lp).2.1.map (fun x => -x)
       else (addSlacks lp).2.1) ++ [0] := by
  simp only [initState]
  simp [List.getLastD_concat]

/-- C3 (counterexample): for the one-constraint maximization problem
`signMaxLP` the loaded objective row is the negation of the extended
objective, not the unnegated objective the claim prescribes for
maximization; dually for the minimization problem `signMinLP`. -/
theorem c3_counterexample :
    (initState signMaxLP).mat.getLastD [] ≠ (addSlacks signMaxLP).2.1 ++ [0] ∧
    (initState signMaxLP).mat.getLastD [] =
      (addSlacks signMaxLP).2.1.map (fun x => -x) ++ [0] ∧
    (initState signMinLP).mat.getLastD [] ≠
      (addSlacks signMinLP).2.1.map (fun x => -x) ++ [0] ∧
    (initState signMinLP).mat.getLastD [] = (addSlacks signMinLP).2.1 ++ [0] := by
  with_unfolding_all decide

/-! ### Claim C6: shape of the canonical problem -/

theorem canonStep_rhs (ns : ℕ) :
    ∀ (l : List (List ℚ × String × ℚ)) (sc : ℕ),
      (canonStep ns l sc).2.1 = l.map (fun x => x.2.2) := by
  intro l
  induction l with
  | nil => intro sc; rfl
  | cons p rest ih =>
    intro sc
    obtain ⟨row, sign, r⟩ := p
    simp only [canonStep, List.map_cons]
    rw [ih]

theorem canonStep_signs (ns : ℕ) :
    ∀ (l : List (List ℚ × String × ℚ)) (sc : ℕ),
      (canonStep ns l sc).2.2 = l.map (fun _ => "=") := by
  intro l
  induction l with
  | nil => intro sc; rfl
  | cons p rest ih =>
    intro sc
    obtain ⟨row, sign, r⟩ := p
    simp only [canonStep, List.map_cons]
    rw [ih]

theorem map_snd_snd_zip {α β γ : Type} (a : List α) (b : List β)
    (c : List γ) (hb : b.length = c.length) (ha : c.length ≤ a.length) :
    (a.zip (b.zip c)).map (fun x => x.2.2) = c := by
  have h1 : (a.zip (b.zip c)).map Prod.snd = b.zip c :=
    List.map_snd_zip _ _ (by simp [List.length_zip]; omega)
  calc (a.zip (b.zip c)).map (fun x => x.2.2)
      = ((a.zip (b.zip c)).map Prod.snd).map Prod.snd := by
        rw [List.map_map]; rfl
    _ = (b.zip c).map Prod.snd := by rw [h1]
    _ = c := List.map_snd_zip _ _ (by omega)

/-- C6: the canonical problem produced by `to_canonical` has relation
`"="` in every row, variable sign `+1` for every variable, and — when
the input satisfies the data-model length invariants — its rhs is the
input's rhs unchanged. -/
theorem c6_canonical_form (lp : LinearProblem)
    (h1 : lp.constraints.length = lp.signs.length)
    (h2 : lp.signs.length = lp.rhs.length) :
    (∀ s ∈ (toCanonical lp).signs, s = "=") ∧
    (∀ v ∈ (toCanonical lp).var_signs, v = 1) ∧
    (toCanonical lp).rhs = lp.rhs := by
  refine ⟨?_, ?_, ?_⟩
  · intro s hs
    simp only [toCanonical] at hs
    rw [canonStep_signs] at hs
    obtain ⟨x, _, hx⟩ := List.mem_map.1 hs
    exact hx.symm
  · intro v hv
    simp only [toCanonical] at hv
    exact List.eq_of_mem_replicate hv
  · simp only [toCanonical]
    rw [canonStep_rhs]
    exact map_snd_snd_zip _ _ _ h2 (by simp [h1, h2])

/-- C6 witness at the feasible worked example. -/
theorem c6_witness :
    (∀ s ∈ (toCanonical feasibleLP).signs, s = "=") ∧
    (∀ v ∈ (toCanonical feasibleLP).var_signs, v = 1) ∧
    (toCanonical feasibleLP).rhs = feasibleLP.rhs :=
  c6_canonical_form feasibleLP (by decide) (by decide)

/-! ### Claim C7: nonnegative auxiliary rhs -/

theorem zipWithFlip_nonneg :
    ∀ (cs : List (List ℚ)) (rs : List ℚ) (q : ℚ),
      q ∈ (List.zipWith (fun row b =>
          if b < (0 : ℚ) then (row.map (fun x => -x), -b) else (row, b))
        cs rs).map Prod.snd →
      0 ≤ q := by
  intro cs
  induction cs with
  | nil => intro rs q hq; simp at hq
  | cons c cs ih =>
    intro rs q hq
    cases rs with
    | nil => simp at hq
    | cons r rs =>
      rw [List.zipWith_cons_cons, List.map_cons] at hq
      rcases List.mem_cons.1 hq with h | h
      · by_cases hr : r < 0
        · rw [if_pos hr] at h
          rw [h]
          simp only
          linarith
        · rw [if_neg hr] at h
          rw [h]
          simp only
          linarith [not_lt.1 hr]
      · exact ih rs q h

/-- C7: every rhs entry of the auxiliary problem produced by
`build_auxiliary` is nonnegative — rows with negative rhs are negated
wholesale before artificial columns are appended. -/
theorem c7_aux_rhs_nonneg (lp : LinearProblem) :
    ∀ q ∈ (buildAuxiliary lp).rhs, 0 ≤ q := by
  intro q hq
  exact zipWithFlip_nonneg lp.constraints lp.rhs q hq

/-- C7 witness at a problem with a negative rhs entry. -/
theorem c7_witness :
    (2 : ℚ) ∈ (buildAuxiliary negRhsLP).rhs ∧ (0 : ℚ) ≤ 2 :=
  ⟨by with_unfolding_all decide,
   c7_aux_rhs_nonneg negRhsLP 2 (by with_unfolding_all decide)⟩

/-! ### Claim C5: a pivot makes the entering column a unit vector -/

/-- C5: immediately after a pivot on `(r, c)` with pivot element above
the tolerance (which the ratio test guarantees), the entering column `c`
of the tableau is exactly the unit vector: `1` in row `r` and `0` in
every other row, the objective row included.  Exact `0`/`1` is stronger
than the `≈0 / 1` within `eps` the claim asks for. -/
theorem c5_pivot_unit_column (rows : List (List ℚ)) (r c : ℕ)
    (hr : r < rows.length)
    (he : eps < (rows.getD r []).getD c 0)
    (hlen : ∀ i, i < rows.length → c < (rows.getD i []).length) :
    ∀ i, i < rows.length →
      ((pivotAll rows r c).getD i []).getD c 0 = if i = r then 1 else 0 := by
  intro i hi
  have hne : (rows.getD r []).getD c 0 ≠ 0 := by
    have h0 : (0 : ℚ) < eps := by norm_num [eps]
    exact ne_of_gt (lt_trans h0 he)
  have hnorm : ((rows.getD r []).map
      (fun x => x / (rows.getD r []).getD c 0)).getD c 0 = 1 := by
    rw [getD_map_of_lt _ _ _ (hlen r hr) _ 0, div_self hne]
  simp only [pivotAll]
  rw [getD_range_map _ _ _ hi]
  by_cases hir : i = r
  · subst hir
    rw [if_pos rfl, if_pos rfl]
    exact hnorm
  · simp only [if_neg hir]
    rw [getD_zipWith_of_lt _ _ _ _ (hlen i hi) (by simpa using hlen r hr) _ 0 0]
    rw [hnorm]
    ring

/-- C5 witness: a concrete pivot on row 0, column 0. -/
theorem c5_witness :
    ((pivotAll [[2, 4], [6, 8]] 0 0).getD 0 []).getD 0 0 = 1 ∧
    ((pivotAll [[2, 4], [6, 8]] 0 0).getD 1 []).getD 0 0 = 0 := by
  have h := c5_pivot_unit_column [[2, 4], [6, 8]] 0 0 (by norm_num)
    (by with_unfolding_all decide)
    (by with_unfolding_all decide)
  constructor
  · simpa using h 0 (by norm_num)
  · simpa using h 1 (by norm_num)

/-! ### Claim C8: mapping the point back to original variables -/

/-- C8: the reported point built by `write_solution` has exactly
`n_original_vars` entries, and entry `j` is
`var_signs[j] * rawPoint[j]`, undoing the canonicalization sign
substitution. -/
theorem c8_sign_mapping (p : LinearProblem) (pt : List ℚ)
    (h1 : p.n_original_vars ≤ pt.length)
    (h2 : p.n_original_vars ≤ p.var_signs.length) :
    (mapOriginal p pt).length = p.n_original_vars ∧
    ∀ j, j < p.n_original_vars →
      (mapOriginal p pt).getD j 0 = p.var_signs.getD j 0 * pt.getD j 0 := by
  constructor
  · simp [mapOriginal]
  · intro j hj
    simp only [mapOriginal]
    rw [getD_range_map _ _ _ hj]
    rw [getD_take_of_lt _ _ _ hj (by omega),
      getD_take_of_lt _ _ _ hj (by omega)]

set_option maxRecDepth 100000 in
/-- C8 witness: the pipeline on `negSignLP` (its variable is declared
`≤ 0`) ends with raw point `[5, 0]`, and the mapped value of the
original variable is its true negative value `-5`. -/
theorem c8_witness :
    mainPipeline 10 negSignLP =
      some (⟨[5, 0], Val.num 5, true, "Симплекс: решение найдено"⟩,
        some [-5]) ∧
    (mapOriginal negSignLP [5, 0]).getD 0 0 =
      negSignLP.var_signs.getD 0 0 * ([5, 0] : List ℚ).getD 0 0 ∧
    (mapOriginal negSignLP [5, 0]).getD 0 0 = -5 := by
  refine ⟨by with_unfolding_all decide, ?_, by with_unfolding_all decide⟩
  exact (c8_sign_mapping negSignLP [5, 0] (by with_unfolding_all decide)
    (by with_unfolding_all decide)).2 0 (by with_unfolding_all decide)

/-! ### Claim C10: the unbounded Solution -/

/-- C10: whenever the simplex loop exits through the unboundedness
branch, the Solution returned by `solve_simplex` has `found = false`,
an empty point, and objective value `+∞`, for every input problem. -/
theorem c10_unbounded_shape (f : ℕ) (lp : LinearProblem) (s : Solution)
    (h : simplexLoop f (initState lp) = some (Sum.inr s)) :
    solveSimplex f lp = some s ∧ s.point = [] ∧ s.value = Val.inf ∧
      s.found = false := by
  have hs := simplexLoop_inr f (initState lp) s h
  subst hs
  exact ⟨by rw [solveSimplex, h], rfl, rfl, rfl⟩

set_option maxRecDepth 100000 in
/-- C10 witness at the spec's unbounded worked example. -/
theorem c10_witness :
    solveSimplex 5 unboundedLP = some unboundedSolution ∧
    unboundedSolution.point = [] ∧
    unboundedSolution.value = Val.inf ∧
    unboundedSolution.found = false :=
  c10_unbounded_shape 5 unboundedLP unboundedSolution
    (by with_unfolding_all decide)

/-! ### Claim C4: the feasible worked example -/

set_option maxRecDepth 100000 in
/-- C4: on the feasible worked example (maximize `2x1 + 3x2`,
`x1 + x2 ≤ 4`, `x1 + 2x2 ≤ 5`) the full pipeline reports a found
solution with mapped point exactly `(3, 1)` and objective value exactly
`9`, for every sufficient fuel. -/
theorem c4_worked_feasible (f : ℕ) (hf : 5 ≤ f) :
    mainPipeline f feasibleLP =
      some (⟨[3, 1, 0, 0], Val.num 9, true, "Симплекс: решение найдено"⟩,
        some [3, 1]) := by
  have base : mainPipeline 5 feasibleLP =
      some (⟨[3, 1, 0, 0], Val.num 9, true, "Симплекс: решение найдено"⟩,
        some [3, 1]) := by with_unfolding_all decide
  exact mainPipeline_mono 5 f feasibleLP _ base hf

/-- C4 witness at fuel 10. -/
theorem c4_witness :
    mainPipeline 10 feasibleLP =
      some (⟨[3, 1, 0, 0], Val.num 9, true, "Симплекс: решение найдено"⟩,
        some [3, 1]) :=
  c4_worked_feasible 10 (by norm_num)

/-! ### Claim C1: phase-1 infeasibility detection -/

theorem slackFold_allEq :
    ∀ (l : List (ℕ × String)) (A : List (List ℚ)) (c : List ℚ)
      (basis : List (Option ℕ)) (n : ℕ),
      (∀ p ∈ l, p.2 = "=") →
      l.foldl slackStep (A, c, basis, n) =
        (A, c, basis ++ List.replicate l.length none, n) := by
  intro l
  induction l with
  | nil => intro A c basis n _; simp
  | cons p rest ih =>
    intro A c basis n hall
    have hp : p.2 = "=" := hall p (List.mem_cons_self _ _)
    rw [List.foldl_cons]
    have hstep : slackStep (A, c, basis, n) p = (A, c, basis ++ [none], n) := by
      simp [slackStep, hp]
    rw [hstep, ih _ _ _ _ (fun q hq => hall q (List.mem_cons_of_mem _ hq))]
    simp [List.replicate_succ, List.append_assoc]

/-- The auxiliary problem has only `"="` relations, so the slack loop
only extends the basis bookkeeping and leaves `A`, `c`, `n` alone. -/
theorem auxSlacks (lp : LinearProblem) :
    addSlacks (buildAuxiliary lp) =
      ((buildAuxiliary lp).constraints, (buildAuxiliary lp).objective,
       List.replicate lp.rhs.length none,
       ((buildAuxiliary lp).constraints.headD []).length) := by
  rw [addSlacks]
  have hsigns : (buildAuxiliary lp).signs =
      List.replicate lp.rhs.length "=" := rfl
  rw [hsigns, slackFold_allEq]
  · simp [List.enum_length]
  · intro p hp
    exact List.eq_of_mem_replicate (List.snd_mem_of_mem_enum hp)

/-- The auxiliary objective is a block of `0`s and a block of `1`s, so
the optimality test of the very first iteration always passes. -/
theorem auxObjectiveAllNonneg (lp : LinearProblem) :
    ((buildAuxiliary lp).objective.all (fun x => decide (-eps ≤ x))) = true := by
  rw [List.all_eq_true]
  intro x hx
  have hobj : (buildAuxiliary lp).objective =
      List.replicate ((lp.constraints.headD []).length) (0 : ℚ) ++
      List.replicate lp.rhs.length 1 := rfl
  rw [hobj] at hx
  have hx01 : x = 0 ∨ x = 1 := by
    rcases List.mem_append.1 hx with h | h
    · exact Or.inl (List.eq_of_mem_replicate h)
    · exact Or.inr (List.eq_of_mem_replicate h)
  rcases hx01 with rfl | rfl <;>
    (simp only [decide_eq_true_eq]; norm_num [eps])

/-- On the auxiliary problem the first optimality check fires: the
engine never pivots in phase 1. -/
theorem auxStep_stop (lp : LinearProblem) :
    simplexStep (initState (buildAuxiliary lp)) = StepRes.stop := by
  have hm : (buildAuxiliary lp).is_max = false := rfl
  have hmat : (initState (buildAuxiliary lp)).mat.getLastD [] =
      (buildAuxiliary lp).objective ++ [0] := by
    simp only [initState, auxSlacks, hm]
    simp [List.getLastD_concat]
  simp only [simplexStep, hmat, List.dropLast_concat, auxObjectiveAllNonneg]
  rfl

/-- Phase 1 always returns the solution extracted from the untouched
initial tableau. -/
theorem solveAux_found (lp : LinearProblem) (f : ℕ) :
    solveSimplex (f + 1) (buildAuxiliary lp) =
      some (extractSolution (initState (buildAuxiliary lp))
        (buildAuxiliary lp)) := by
  rw [solveSimplex, simplexLoop, auxStep_stop]

set_option maxRecDepth 100000 in
/-- C1: the pipeline never compares the phase-1 objective against the
tolerance.  The phase-1 solve reports `found = true` for *every* input
(its objective row starts nonnegative, so the engine stops before any
pivot), and on the contradictory worked example `x1 + x2 = 1`,
`x1 + x2 = 3` the pipeline happily runs phase 2 and returns a "found"
solution with point `(0, 0)` and value `0` instead of an infeasibility
result. -/
theorem c1_infeasible_undetected :
    (∀ (lp : LinearProblem) (f : ℕ), ∃ s,
        solveSimplex (f + 1) (buildAuxiliary lp) = some s ∧
        s.found = true) ∧
    mainPipeline 10 infeasibleLP =
      some (⟨[0, 0], Val.num 0, true, "Симплекс: решение найдено"⟩,
        some [0, 0]) := by
  constructor
  · intro lp f
    exact ⟨_, solveAux_found lp f, rfl⟩
  · with_unfolding_all decide
